import Mathlib

/-!
Verification of the prerequisite-tracking script (`src/script.js`).

The script keeps a list of approved course ids (`ramos aprobados`) in
`localStorage` under one key, recomputes every course's visual state
(`aprobado` / `bloqueado` classes) from that list, and toggles a course on
click unless its `bloqueado` class is set.  The definitions below embed the
three functions `cargarRamosAprobados`, `guardarRamosAprobados`,
`actualizarEstadoVisual` and `manejarClicRamo`, together with a model of the
JavaScript `JSON` builtins as far as the script can observe them.
-/

namespace Malla

/-! ## Model of the JSON builtins

The script stores `JSON.stringify(array-of-strings)` and reads the stored
value back with `JSON.parse`.  `Json` models parse results: `null`,
booleans, integer numbers, strings and arrays.  Object values and
fraction/exponent number forms never arise from the script's own writes
and are outside the model (the model's parse rejects them where the
builtin may accept them).  The theorems below therefore use the parse
model only where it agrees with the builtin: on outputs of
`stringifyStrArr`, which both parse back to the same string array, and on
the single stored value `x`, which both reject. -/

inductive Json where
  | null : Json
  | bool (b : Bool) : Json
  | num (n : Int) : Json
  | str (s : String) : Json
  | arr (elems : List Json) : Json

/-- Whitespace characters the JSON grammar skips. -/
def isWs (c : Char) : Bool :=
  c = ' ' || c = '\t' || c = '\n' || c = '\r'

/-- Drop leading JSON whitespace. -/
def skipWs : List Char → List Char
  | [] => []
  | c :: rest => if isWs c then skipWs rest else c :: rest

/-- Numeric value of one hexadecimal digit. -/
def hexVal (c : Char) : Option Nat :=
  if '0' ≤ c ∧ c ≤ '9' then some (c.toNat - 48)
  else if 'a' ≤ c ∧ c ≤ 'f' then some (c.toNat - 87)
  else if 'A' ≤ c ∧ c ≤ 'F' then some (c.toNat - 55)
  else none

/-- Resolution of a single-character JSON string escape (`\"`, `\\`, `\/`,
`\b`, `\f`, `\n`, `\r`, `\t`). -/
def unescape (e : Char) : Option Char :=
  if e = '"' then some '"'
  else if e = '\\' then some '\\'
  else if e = '/' then some '/'
  else if e = 'b' then some '\x08'
  else if e = 'f' then some '\x0c'
  else if e = 'n' then some '\n'
  else if e = 'r' then some '\r'
  else if e = 't' then some '\t'
  else none

/-- Prepend a decoded character to the result of parsing the remainder of a
string body; fails when either piece failed. -/
def escapeCont (och : Option Char) (res : Option (List Char × List Char)) :
    Option (List Char × List Char) :=
  och.bind fun ch => res.map fun p => (ch :: p.1, p.2)

/-- Decode a `\uXXXX` escape from its four hex digits and prepend it. -/
def hexEscape (a b c2 d : Char) (res : Option (List Char × List Char)) :
    Option (List Char × List Char) :=
  (hexVal a).bind fun ha => (hexVal b).bind fun hb => (hexVal c2).bind fun hc =>
    (hexVal d).bind fun hd => res.map fun p =>
      (Char.ofNat (((ha * 16 + hb) * 16 + hc) * 16 + hd) :: p.1, p.2)

/-- Body of a JSON string literal, after the opening quote: returns the
decoded characters and the remaining input after the closing quote.  A raw
control character is rejected, as the JSON grammar requires it escaped. -/
def parseStringBody : List Char → Option (List Char × List Char)
  | [] => none
  | c :: rest =>
    if c = '"' then some ([], rest)
    else if c = '\\' then
      match rest with
      | 'u' :: a :: b :: c2 :: d :: rest3 => hexEscape a b c2 d (parseStringBody rest3)
      | e :: rest2 => escapeCont (unescape e) (parseStringBody rest2)
      | [] => none
    else if c.toNat < 32 then none
    else escapeCont (some c) (parseStringBody rest)

/-- Match the remaining characters of a keyword such as `ull` after `n`. -/
def afterKeyword : List Char → List Char → Option (List Char)
  | [], rest => some rest
  | k :: kt, c :: ct => if c = k then afterKeyword kt ct else none
  | _ :: _, [] => none

/-- Split the longest run of leading decimal digits from the input. -/
def splitDigits : List Char → List Char × List Char
  | [] => ([], [])
  | c :: rest =>
    if c.isDigit then
      let p := splitDigits rest
      (c :: p.1, p.2)
    else ([], c :: rest)

/-- Numeric value of a run of decimal digits. -/
def digitsVal (ds : List Char) : Nat :=
  ds.foldl (fun a c => a * 10 + (c.toNat - 48)) 0

/-- Leading-zero test: the JSON grammar forbids `01`, `007` and the like. -/
def hasLeadingZero : List Char → Bool
  | '0' :: _ :: _ => true
  | _ => false

/-- Integer JSON numbers without leading zeros (the only numbers this
model covers; fraction and exponent forms stay outside the model). -/
def parseNumber (cs : List Char) : Option (Json × List Char) :=
  match cs with
  | [] => none
  | c :: rest =>
    if c = '-' then
      match rest with
      | [] => none
      | d :: _ =>
        if d.isDigit then
          let p := splitDigits rest
          if hasLeadingZero p.1 then none
          else some (Json.num (-(digitsVal p.1 : Int)), p.2)
        else none
    else if c.isDigit then
      let p := splitDigits cs
      if hasLeadingZero p.1 then none
      else some (Json.num ((digitsVal p.1 : Int)), p.2)
    else none

mutual

/-- One JSON value, fuelled recursive-descent. -/
def parseValue : Nat → List Char → Option (Json × List Char)
  | 0, _ => none
  | fuel + 1, cs =>
    match skipWs cs with
    | [] => none
    | c :: rest =>
      if c = '"' then
        (parseStringBody rest).map fun p => (Json.str (String.mk p.1), p.2)
      else if c = '[' then
        match skipWs rest with
        | [] => none
        | d :: rest2 =>
          if d = ']' then some (Json.arr [], rest2)
          else (parseElems fuel (d :: rest2)).map fun p => (Json.arr p.1, p.2)
      else if c = 'n' then
        (afterKeyword ['u', 'l', 'l'] rest).map fun r => (Json.null, r)
      else if c = 't' then
        (afterKeyword ['r', 'u', 'e'] rest).map fun r => (Json.bool true, r)
      else if c = 'f' then
        (afterKeyword ['a', 'l', 's', 'e'] rest).map fun r => (Json.bool false, r)
      else parseNumber (c :: rest)

/-- Comma-separated array elements up to the closing bracket. -/
def parseElems : Nat → List Char → Option (List Json × List Char)
  | 0, _ => none
  | fuel + 1, cs =>
    (parseValue fuel cs).bind fun jr =>
      match skipWs jr.2 with
      | [] => none
      | c :: rest2 =>
        if c = ',' then (parseElems fuel rest2).map fun p => (jr.1 :: p.1, p.2)
        else if c = ']' then some ([jr.1], rest2)
        else none

end

/-- Model of `JSON.parse`: one value, then only trailing whitespace. -/
def Json.parse (s : String) : Option Json :=
  match parseValue (s.data.length + 1) s.data with
  | some (j, rest) =>
    match skipWs rest with
    | [] => some j
    | _ :: _ => none
  | none => none

/-- Lowercase hexadecimal digit for a value below 16. -/
def hexDigitChar (n : Nat) : Char :=
  if n < 10 then Char.ofNat (48 + n) else Char.ofNat (87 + n)

/-- Escaping of one character inside a JSON string literal, as
`JSON.stringify` performs it: `"` and `\` get a backslash, the five named
control characters use their short escapes, the remaining control
characters use `\u00XX`, everything else is emitted literally. -/
def escChar (c : Char) : List Char :=
  if c = '"' then ['\\', '"']
  else if c = '\\' then ['\\', '\\']
  else if c = '\x08' then ['\\', 'b']
  else if c = '\t' then ['\\', 't']
  else if c = '\n' then ['\\', 'n']
  else if c = '\x0c' then ['\\', 'f']
  else if c = '\r' then ['\\', 'r']
  else if c.toNat < 32 then
    ['\\', 'u', '0', '0', hexDigitChar (c.toNat / 16), hexDigitChar (c.toNat % 16)]
  else [c]

/-- Escape every character of a string body. -/
def escString : List Char → List Char
  | [] => []
  | c :: rest => escChar c ++ escString rest

/-- A JSON string literal for `s`, quotes included. -/
def stringifyStr (s : String) : List Char :=
  '"' :: (escString s.data ++ ['"'])

/-- Comma-separated rendering of the array elements. -/
def sepElems : List String → List Char
  | [] => []
  | [s] => stringifyStr s
  | s :: t :: rest => stringifyStr s ++ ',' :: sepElems (t :: rest)

/-- What follows the first rendered element: nothing, or a comma and the
rest. -/
def sepTail : List String → List Char
  | [] => []
  | u :: rest => ',' :: sepElems (u :: rest)

/-- Model of `JSON.stringify` on an array of strings — the only value the
script ever stores. -/
def stringifyStrArr (ids : List String) : String :=
  String.mk ('[' :: sepElems ids ++ [']'])

/-! ## GraphStateStore: `cargarRamosAprobados` / `guardarRamosAprobados`

The persisted state is the content of `localStorage` under the single key
`ramosAprobados`, modelled as `Option String` (`none` = key absent). -/

/-- A JavaScript exception escaping to the caller. -/
inductive JsError where
  | syntaxError : JsError
  deriving DecidableEq

/-- Embedding of `cargarRamosAprobados` (script.js lines 13–17):
`localStorage.getItem` yields `null` (modelled `none`) or a string; the
conditional `ramosGuardados ? JSON.parse(ramosGuardados) : []` treats both
`null` and the empty string as falsy and yields `[]`; otherwise
`JSON.parse` runs and throws a `SyntaxError` on malformed input. -/
def cargarRamosAprobados (store : Option String) : Except JsError Json :=
  match store with
  | none => Except.ok (Json.arr [])
  | some s =>
    if s = "" then Except.ok (Json.arr [])
    else
      match Json.parse s with
      | some j => Except.ok j
      | none => Except.error JsError.syntaxError

/-- Embedding of `guardarRamosAprobados` (script.js lines 23–26): the new
`localStorage` content under the key. -/
def guardarRamosAprobados (aprobados : List String) : Option String :=
  some (stringifyStrArr aprobados)

/-- Elements of a parsed JSON array read back as strings; `none` when some
element is not a string (the script would then misbehave on `includes`). -/
def strListOfJson : List Json → Option (List String)
  | [] => some []
  | Json.str s :: rest => (strListOfJson rest).map (fun t => s :: t)
  | _ => none

/-- The list of approved ids the script works with after loading: the
stored value must load without a JavaScript error and decode to an array
of strings. -/
def decodeAprobados (store : Option String) : Option (List String) :=
  match cargarRamosAprobados store with
  | Except.ok (Json.arr js) => strListOfJson js
  | _ => none

/-! ## PrerequisiteEngine: `actualizarEstadoVisual` / `manejarClicRamo` -/

/-- A course tile: its element id and the requirement list decoded from
`data-requisitos` (script.js line 37; an absent or empty attribute decodes
to `[]`). -/
structure Ramo where
  id : String
  requisitos : List String
  deriving DecidableEq

/-- The two CSS classes `actualizarEstadoVisual` manages on a tile. -/
structure Clases where
  aprobado : Bool
  bloqueado : Bool
  deriving DecidableEq

/-- Embedding of the per-tile body of `actualizarEstadoVisual` (script.js
lines 39–61): an approved tile gets `aprobado` and loses `bloqueado`;
otherwise `aprobado` is removed and `bloqueado` is set exactly when the
requirement list is non-empty and not every requirement is approved. -/
def actualizarClases (aprobados : List String) (ramo : Ramo) : Clases :=
  if aprobados.contains ramo.id then
    { aprobado := true, bloqueado := false }
  else
    { aprobado := false,
      bloqueado :=
        decide (ramo.requisitos.length > 0) &&
          !(ramo.requisitos.all fun reqId => aprobados.contains reqId) }

/-- The three derived states of the specification. -/
inductive Status where
  | aprobado : Status
  | bloqueado : Status
  | disponible : Status
  deriving DecidableEq

/-- The status a tile displays after `actualizarEstadoVisual`: read off the
class assignment of `actualizarClases`. -/
def status (aprobados : List String) (ramo : Ramo) : Status :=
  let c := actualizarClases aprobados ramo
  if c.aprobado then Status.aprobado
  else if c.bloqueado then Status.bloqueado
  else Status.disponible

/-- Embedding of script.js line 80: the requirements not yet approved, in
requirement-list order. -/
def faltantes (requisitos aprobados : List String) : List String :=
  requisitos.filter fun reqId => !aprobados.contains reqId

/-- Embedding of script.js lines 83–86: each missing requirement resolved
through `document.getElementById(...).textContent`, modelled by the lookup
collaborator `lookup`; a missing element falls back to the raw id. -/
def nombresFaltantes (lookup : String → Option String) (missing : List String) :
    List String :=
  missing.map fun reqId => (lookup reqId).getD reqId

/-- Embedding of script.js lines 95–101: remove the id when present
(`filter` drops every occurrence), append it otherwise (`push`). -/
def toggleAprobados (aprobados : List String) (ramoId : String) : List String :=
  if aprobados.contains ramoId then
    aprobados.filter fun id => id != ramoId
  else
    aprobados ++ [ramoId]

/-- Observable outcome of one click: the alert shown (with its resolved
missing-requirement names), whether `guardarRamosAprobados` ran, and the
`localStorage` content afterwards. -/
structure ClickResult where
  alerta : Option (List String)
  didSave : Bool
  store : Option String
  deriving DecidableEq

/-- Embedding of `manejarClicRamo` (script.js lines 70–107) on a tile whose
current classes are `clases`.  `none` models a JavaScript error escaping
the handler (malformed storage, or a stored value that is not an array of
strings).  When the `bloqueado` class is set the handler only alerts; the
store is untouched.  Otherwise it toggles the id and saves the new list. -/
def manejarClicRamo (lookup : String → Option String) (ramo : Ramo)
    (clases : Clases) (store : Option String) : Option ClickResult :=
  if clases.bloqueado then
    (decodeAprobados store).map fun aprobados =>
      { alerta := some (nombresFaltantes lookup
          (faltantes ramo.requisitos aprobados)),
        didSave := false, store := store }
  else
    (decodeAprobados store).map fun aprobados =>
      { alerta := none, didSave := true,
        store := guardarRamosAprobados (toggleAprobados aprobados ramo.id) }

/-- Effect of one click on the approved-id list itself, with the classes in
sync with the list — which the script guarantees by running
`actualizarEstadoVisual` at startup and again after every save (script.js
lines 106, 118). -/
def clickStep (aprobados : List String) (ramo : Ramo) : List String :=
  if (actualizarClases aprobados ramo).bloqueado then aprobados
  else toggleAprobados aprobados ramo.id

/-! ## Round-trip lemmas for the JSON model -/

theorem skipWs_cons_of_not_ws {c : Char} (r : List Char) (h : isWs c = false) :
    skipWs (c :: r) = c :: r := by
  simp [skipWs, h]

theorem hexVal_hexDigitChar : ∀ n : Nat, n < 16 → hexVal (hexDigitChar n) = some n := by
  decide

theorem parseStringBody_escChar (c : Char) (mid s r : List Char)
    (h : parseStringBody mid = some (s, r)) :
    parseStringBody (escChar c ++ mid) = some (c :: s, r) := by
  by_cases h1 : c = '"'
  · subst h1
    simp [escChar, parseStringBody, escapeCont, unescape, h]
  by_cases h2 : c = '\\'
  · subst h2
    simp [escChar, parseStringBody, escapeCont, unescape, h]
  by_cases h3 : c = '\x08'
  · subst h3
    simp [escChar, parseStringBody, escapeCont, unescape, h]
  by_cases h4 : c = '\t'
  · subst h4
    simp [escChar, parseStringBody, escapeCont, unescape, h]
  by_cases h5 : c = '\n'
  · subst h5
    simp [escChar, parseStringBody, escapeCont, unescape, h]
  by_cases h6 : c = '\x0c'
  · subst h6
    simp [escChar, parseStringBody, escapeCont, unescape, h]
  by_cases h7 : c = '\r'
  · subst h7
    simp [escChar, parseStringBody, escapeCont, unescape, h]
  by_cases h8 : c.toNat < 32
  · have hd1 : c.toNat / 16 < 16 := by omega
    have hd2 : c.toNat % 16 < 16 := by omega
    have e0 : hexVal '0' = some 0 := by decide
    rw [escChar, if_neg h1, if_neg h2, if_neg h3, if_neg h4, if_neg h5, if_neg h6,
      if_neg h7, if_pos h8]
    simp only [List.cons_append, List.nil_append]
    simp [parseStringBody, hexEscape, e0, hexVal_hexDigitChar _ hd1,
      hexVal_hexDigitChar _ hd2, h]
    have hval : c.toNat / 16 * 16 + c.toNat % 16 = c.toNat := by
      omega
    rw [hval, Char.ofNat_toNat]
  · rw [escChar, if_neg h1, if_neg h2, if_neg h3, if_neg h4, if_neg h5, if_neg h6,
      if_neg h7, if_neg h8]
    simp only [List.cons_append, List.nil_append]
    rw [parseStringBody.eq_def]
    simp [h1, h2, h8, escapeCont, h]

theorem parseStringBody_escString (cs rest : List Char) :
    parseStringBody (escString cs ++ '"' :: rest) = some (cs, rest) := by
  induction cs with
  | nil =>
    rw [escString, List.nil_append, parseStringBody.eq_def]
    simp
  | cons c t ih =>
    rw [escString, List.append_assoc]
    exact parseStringBody_escChar c _ t rest ih

theorem parseValue_stringifyStr (s : String) (fuel : Nat) (tail : List Char) :
    parseValue (fuel + 1) (stringifyStr s ++ tail) = some (Json.str s, tail) := by
  have hshape : stringifyStr s ++ tail = '"' :: (escString s.data ++ '"' :: tail) := by
    simp [stringifyStr]
  rw [hshape]
  simp [parseValue, skipWs, isWs, parseStringBody_escString]

theorem two_le_length_stringifyStr (s : String) : 2 ≤ (stringifyStr s).length := by
  simp [stringifyStr]

theorem length_le_sepElems : ∀ S : List String, S.length ≤ (sepElems S).length + 1
  | [] => by simp [sepElems]
  | [s] => by
    have h := two_le_length_stringifyStr s
    simp [sepElems]
  | s :: t :: rest => by
    have h1 := two_le_length_stringifyStr s
    have h2 := length_le_sepElems (t :: rest)
    simp only [sepElems, List.length_cons, List.length_append] at h2 ⊢
    omega

theorem parseElems_succ (fuel : Nat) (cs : List Char) :
    parseElems (fuel + 1) cs =
      (parseValue fuel cs).bind fun jr =>
        match skipWs jr.2 with
        | [] => none
        | c :: rest2 =>
          if c = ',' then (parseElems fuel rest2).map fun p => (jr.1 :: p.1, p.2)
          else if c = ']' then some ([jr.1], rest2)
          else none := by
  rw [parseElems]

theorem parseElems_sepElems :
    ∀ (S : List String) (fuel : Nat) (rest : List Char), S ≠ [] →
      S.length + 1 ≤ fuel →
      parseElems fuel (sepElems S ++ ']' :: rest) = some (S.map Json.str, rest)
  | [], _, _, hne, _ => absurd rfl hne
  | [s], fuel, rest, _, hfuel => by
    have hf2 : 2 ≤ fuel := by simp at hfuel; omega
    obtain ⟨g, rfl⟩ : ∃ g, fuel = (g + 1) + 1 := ⟨fuel - 2, by omega⟩
    rw [sepElems, parseElems_succ, parseValue_stringifyStr]
    simp [skipWs, isWs]
  | s :: t :: rest2, fuel, rest, _, hfuel => by
    have hf2 : 2 ≤ fuel := by simp at hfuel; omega
    obtain ⟨g, rfl⟩ : ∃ g, fuel = (g + 1) + 1 := ⟨fuel - 2, by omega⟩
    have hrec := parseElems_sepElems (t :: rest2) (g + 1) rest (by simp)
      (by simp at hfuel ⊢; omega)
    rw [sepElems]
    have hshape : (stringifyStr s ++ ',' :: sepElems (t :: rest2)) ++ ']' :: rest =
        stringifyStr s ++ (',' :: (sepElems (t :: rest2) ++ ']' :: rest)) := by
      simp
    rw [hshape, parseElems_succ, parseValue_stringifyStr]
    simp [skipWs, isWs, hrec]

theorem sepElems_cons_eq (s : String) (t : List String) :
    sepElems (s :: t) = stringifyStr s ++ sepTail t := by
  cases t with
  | nil => simp [sepElems, sepTail]
  | cons u rest => simp [sepElems, sepTail]

theorem parseValue_succ_arr (fuel : Nat) (body : List Char) :
    parseValue (fuel + 1) ('[' :: '"' :: body) =
      (parseElems fuel ('"' :: body)).map fun p => (Json.arr p.1, p.2) := by
  rw [parseValue]
  simp [skipWs, isWs]

theorem parse_stringifyStrArr (S : List String) :
    Json.parse (stringifyStrArr S) = some (Json.arr (S.map Json.str)) := by
  cases S with
  | nil => rfl
  | cons s t =>
    have hlen := length_le_sepElems (s :: t)
    have hhead : sepElems (s :: t) ++ [']'] = '"' :: (escString s.data ++ '"' ::
        (sepTail t ++ [']'])) := by
      rw [sepElems_cons_eq, stringifyStr]
      simp
    have hdata : (stringifyStrArr (s :: t)).data = '[' :: (sepElems (s :: t) ++ [']']) := by
      simp [stringifyStrArr]
    have hlen3 : (stringifyStrArr (s :: t)).data.length =
        (sepElems (s :: t)).length + 2 := by
      rw [hdata]
      simp
    have helems := parseElems_sepElems (s :: t) ((sepElems (s :: t)).length + 2) []
      (by simp) (by simp at hlen ⊢; omega)
    rw [Json.parse, hlen3, hdata, hhead, parseValue_succ_arr]
    rw [show sepElems (s :: t) ++ ']' :: [] = sepElems (s :: t) ++ [']'] from rfl,
      hhead] at helems
    rw [helems]
    simp [skipWs]

theorem strListOfJson_map (S : List String) :
    strListOfJson (S.map Json.str) = some S := by
  induction S with
  | nil => rfl
  | cons s t ih => simp [strListOfJson, ih]

theorem stringifyStrArr_ne_empty (S : List String) : stringifyStrArr S ≠ "" := by
  intro h
  have hdata : ('[' :: sepElems S ++ [']'] : List Char) = "".data := congrArg String.data h
  simp at hdata

theorem decodeAprobados_guardar (S : List String) :
    decodeAprobados (guardarRamosAprobados S) = some S := by
  simp [decodeAprobados, guardarRamosAprobados, cargarRamosAprobados,
    stringifyStrArr_ne_empty, parse_stringifyStrArr, strListOfJson_map]

/-! ## Lemmas about the status computation and the toggle -/

theorem aprobado_imp_not_bloqueado (A : List String) (ramo : Ramo)
    (h : (actualizarClases A ramo).aprobado = true) :
    (actualizarClases A ramo).bloqueado = false := by
  by_cases hc : ramo.id ∈ A
  · simp [actualizarClases, hc]
  · simp [actualizarClases, hc] at h

theorem status_eq (A : List String) (ramo : Ramo) :
    status A ramo =
      if ramo.id ∈ A then Status.aprobado
      else if ∃ r ∈ ramo.requisitos, r ∉ A then Status.bloqueado
      else Status.disponible := by
  by_cases h : ramo.id ∈ A
  · simp [status, actualizarClases, h]
  · by_cases h2 : ∃ r ∈ ramo.requisitos, r ∉ A
    · obtain ⟨r, hr, hrA⟩ := h2
      have hpos : 0 < ramo.requisitos.length := by
        cases hreq : ramo.requisitos with
        | nil => rw [hreq] at hr; simp at hr
        | cons a l => simp [hreq]
      have hall : ramo.requisitos.all (fun reqId => A.contains reqId) = false := by
        simp only [List.all_eq_false]
        exact ⟨r, hr, by simpa using hrA⟩
      have hex : ∃ r ∈ ramo.requisitos, r ∉ A := ⟨r, hr, hrA⟩
      simp [status, actualizarClases, h, hpos, hall, hex]
    · have hall : ramo.requisitos.all (fun reqId => A.contains reqId) = true := by
        push_neg at h2
        simp only [List.all_eq_true]
        intro r hr
        simpa using h2 r hr
      simp [status, actualizarClases, h, hall, h2]

theorem status_bloqueado_iff_clase (A : List String) (ramo : Ramo) :
    status A ramo = Status.bloqueado ↔ (actualizarClases A ramo).bloqueado = true := by
  rw [status]
  cases ha : (actualizarClases A ramo).aprobado with
  | true =>
    have hb := aprobado_imp_not_bloqueado A ramo ha
    simp [ha, hb]
  | false =>
    cases hb : (actualizarClases A ramo).bloqueado <;> simp [ha, hb]

theorem mem_toggleAprobados (A : List String) (X z : String) :
    z ∈ toggleAprobados A X ↔ (if z = X then X ∉ A else z ∈ A) := by
  by_cases hX : X ∈ A <;> by_cases hz : z = X <;>
    simp [toggleAprobados, hX, hz, List.mem_filter]

theorem clase_not_bloqueado_of_status_ne (A : List String) (ramo : Ramo)
    (hnb : status A ramo ≠ Status.bloqueado) :
    (actualizarClases A ramo).bloqueado = false := by
  by_contra hcontra
  exact hnb ((status_bloqueado_iff_clase A ramo).2 (by simpa using hcontra))

theorem filter_not_contains_eq (L A : List String) :
    L.filter (fun r => !A.contains r) = L.filter fun r => decide (r ∉ A) := by
  induction L with
  | nil => rfl
  | cons a t ih => by_cases ha : a ∈ A <;> simp [List.filter_cons, ha, ih]

/-! ## The claims -/

/-- C1: for every item with a non-empty requirement list and every
completed set, the computed status is `bloqueado` iff the item's id is not
completed and some requirement is not completed; it is `aprobado` iff the
id is completed; and it is `disponible` exactly when it is neither
`aprobado` nor `bloqueado`. -/
theorem claim1_lock_correctness (A : List String) (ramo : Ramo)
    (_hreq : ramo.requisitos ≠ []) :
    (status A ramo = Status.bloqueado ↔
      (ramo.id ∉ A ∧ ∃ r ∈ ramo.requisitos, r ∉ A)) ∧
    (status A ramo = Status.aprobado ↔ ramo.id ∈ A) ∧
    (status A ramo = Status.disponible ↔
      (status A ramo ≠ Status.aprobado ∧ status A ramo ≠ Status.bloqueado)) := by
  rw [status_eq]
  by_cases h : ramo.id ∈ A
  · simp [h]
  · by_cases h2 : ∃ r ∈ ramo.requisitos, r ∉ A <;> simp [h, h2]

/-- Witness for C1 at the catalog item `B` requiring `A`, with nothing
completed. -/
theorem claim1_lock_correctness_witness :
    (({ id := "B", requisitos := ["A"] } : Ramo).requisitos ≠ []) ∧
    ((status [] { id := "B", requisitos := ["A"] } = Status.bloqueado ↔
      (({ id := "B", requisitos := ["A"] } : Ramo).id ∉ ([] : List String) ∧
        ∃ r ∈ ({ id := "B", requisitos := ["A"] } : Ramo).requisitos,
          r ∉ ([] : List String))) ∧
    (status [] { id := "B", requisitos := ["A"] } = Status.aprobado ↔
      ({ id := "B", requisitos := ["A"] } : Ramo).id ∈ ([] : List String)) ∧
    (status [] { id := "B", requisitos := ["A"] } = Status.disponible ↔
      (status [] { id := "B", requisitos := ["A"] } ≠ Status.aprobado ∧
        status [] { id := "B", requisitos := ["A"] } ≠ Status.bloqueado))) :=
  ⟨by decide, claim1_lock_correctness [] { id := "B", requisitos := ["A"] } (by decide)⟩

/-- C2: clicking a tile that is not `bloqueado` toggles its id in the
loaded list — removing it when present, appending it when absent, keeping
every other id — and stores the full updated list through
`guardarRamosAprobados` in the returned result. -/
theorem claim2_toggle_updates_and_saves (lookup : String → Option String)
    (ramo : Ramo) (A : List String) (store : Option String)
    (hload : decodeAprobados store = some A)
    (hnb : status A ramo ≠ Status.bloqueado) :
    manejarClicRamo lookup ramo (actualizarClases A ramo) store =
      some { alerta := none, didSave := true,
             store := guardarRamosAprobados (toggleAprobados A ramo.id) } ∧
    (ramo.id ∈ A → ramo.id ∉ toggleAprobados A ramo.id) ∧
    (ramo.id ∉ A → ramo.id ∈ toggleAprobados A ramo.id) ∧
    (∀ z, z ≠ ramo.id → (z ∈ toggleAprobados A ramo.id ↔ z ∈ A)) := by
  have hb : (actualizarClases A ramo).bloqueado = false :=
    clase_not_bloqueado_of_status_ne A ramo hnb
  refine ⟨by simp [manejarClicRamo, hb, hload], ?_, ?_, ?_⟩
  · intro h
    rw [mem_toggleAprobados]
    simp [h]
  · intro h
    rw [mem_toggleAprobados]
    simpa using h
  · intro z hz
    rw [mem_toggleAprobados]
    simp [hz]

/-- Witness for C2: clicking the requirement-free tile `A` on an empty
store appends `A` and saves. -/
theorem claim2_toggle_updates_and_saves_witness :
    (decodeAprobados none = some []) ∧
    (status [] { id := "A", requisitos := [] } ≠ Status.bloqueado) ∧
    (manejarClicRamo (fun _ => none) { id := "A", requisitos := [] }
        (actualizarClases [] { id := "A", requisitos := [] }) none =
      some { alerta := none, didSave := true,
             store := guardarRamosAprobados
               (toggleAprobados [] ({ id := "A", requisitos := [] } : Ramo).id) } ∧
    (({ id := "A", requisitos := [] } : Ramo).id ∈ ([] : List String) →
      ({ id := "A", requisitos := [] } : Ramo).id ∉
        toggleAprobados [] ({ id := "A", requisitos := [] } : Ramo).id) ∧
    (({ id := "A", requisitos := [] } : Ramo).id ∉ ([] : List String) →
      ({ id := "A", requisitos := [] } : Ramo).id ∈
        toggleAprobados [] ({ id := "A", requisitos := [] } : Ramo).id) ∧
    (∀ z, z ≠ ({ id := "A", requisitos := [] } : Ramo).id →
      (z ∈ toggleAprobados [] ({ id := "A", requisitos := [] } : Ramo).id ↔
        z ∈ ([] : List String)))) :=
  ⟨by decide, by decide,
    claim2_toggle_updates_and_saves (fun _ => none) { id := "A", requisitos := [] }
      [] none (by decide) (by decide)⟩

/-- C3: clicking a tile whose status under the loaded list is `bloqueado`
only raises the alert: nothing is saved and the stored value is returned
unchanged. -/
theorem claim3_locked_rejection_side_effect_free (lookup : String → Option String)
    (ramo : Ramo) (A : List String) (store : Option String)
    (hload : decodeAprobados store = some A)
    (hbl : status A ramo = Status.bloqueado) :
    ∃ msg, manejarClicRamo lookup ramo (actualizarClases A ramo) store =
      some { alerta := some msg, didSave := false, store := store } := by
  have hb : (actualizarClases A ramo).bloqueado = true :=
    (status_bloqueado_iff_clase A ramo).1 hbl
  exact ⟨nombresFaltantes lookup (faltantes ramo.requisitos A),
    by simp [manejarClicRamo, hb, hload]⟩

/-- Witness for C3: clicking the locked tile `B` (requiring `A`) on an
empty store changes nothing. -/
theorem claim3_locked_rejection_side_effect_free_witness :
    (decodeAprobados none = some []) ∧
    (status [] { id := "B", requisitos := ["A"] } = Status.bloqueado) ∧
    (∃ msg, manejarClicRamo (fun _ => none) { id := "B", requisitos := ["A"] }
        (actualizarClases [] { id := "B", requisitos := ["A"] }) none =
      some { alerta := some msg, didSave := false, store := none }) :=
  ⟨by decide, by decide,
    claim3_locked_rejection_side_effect_free (fun _ => none)
      { id := "B", requisitos := ["A"] } [] none (by decide) (by decide)⟩

/-- C5: extending the completed set with one more id never turns an item
that was `disponible` or `aprobado` into `bloqueado`. -/
theorem claim5_monotonicity_under_addition (ramo : Ramo) (A A2 : List String)
    (Y : String) (hA2 : ∀ z, z ∈ A2 ↔ (z ∈ A ∨ z = Y))
    (h : status A ramo = Status.disponible ∨ status A ramo = Status.aprobado) :
    status A2 ramo ≠ Status.bloqueado := by
  rw [status_eq] at h ⊢
  by_cases hid : ramo.id ∈ A
  · have hid2 : ramo.id ∈ A2 := (hA2 _).2 (Or.inl hid)
    simp [hid2]
  · by_cases h2 : ∃ r ∈ ramo.requisitos, r ∉ A
    · simp [hid, h2] at h
    · by_cases hid2 : ramo.id ∈ A2
      · simp [hid2]
      · have h2b : ¬ ∃ r ∈ ramo.requisitos, r ∉ A2 := by
          push_neg at h2 ⊢
          intro r hr
          exact (hA2 r).2 (Or.inl (h2 r hr))
        simp [hid2, h2b]

/-- Witness for C5: the available tile `B` (requiring the completed `A`)
stays unlocked when `C` is added to the completed set. -/
theorem claim5_monotonicity_under_addition_witness :
    (∀ z : String, z ∈ ["A", "C"] ↔ (z ∈ ["A"] ∨ z = "C")) ∧
    (status ["A"] { id := "B", requisitos := ["A"] } = Status.disponible ∨
      status ["A"] { id := "B", requisitos := ["A"] } = Status.aprobado) ∧
    status ["A", "C"] { id := "B", requisitos := ["A"] } ≠ Status.bloqueado :=
  ⟨by intro z; simp, by decide,
    claim5_monotonicity_under_addition { id := "B", requisitos := ["A"] }
      ["A"] ["A", "C"] "C" (by intro z; simp) (by decide)⟩

/-- C6: saving any list of ids and loading it back succeeds and yields the
very same list (in particular the same set of ids, independent of order). -/
theorem claim6_round_trip_persistence (S : List String) :
    cargarRamosAprobados (guardarRamosAprobados S) =
      Except.ok (Json.arr (S.map Json.str)) ∧
    decodeAprobados (guardarRamosAprobados S) = some S := by
  constructor
  · simp [guardarRamosAprobados, cargarRamosAprobados, stringifyStrArr_ne_empty,
      parse_stringifyStrArr]
  · exact decodeAprobados_guardar S

/-- C4 counterexample: the stored value `x` is malformed, yet `load` does
not return the empty set — the `JSON.parse` exception escapes to the
caller. -/
theorem claim4_counterexample :
    Json.parse "x" = none ∧
    cargarRamosAprobados (some "x") = Except.error JsError.syntaxError :=
  ⟨rfl, rfl⟩

/-- C4 (amended): `load` returns the empty set when the persisted value is
absent or the empty string (both falsy); it does not treat malformed data
as no data — on the malformed stored value `x` (rejected by the real
`JSON.parse` just as by this model) the parse error propagates to the
caller and the empty set is not returned. -/
theorem claim4_load_amended :
    cargarRamosAprobados none = Except.ok (Json.arr []) ∧
    cargarRamosAprobados (some "") = Except.ok (Json.arr []) ∧
    cargarRamosAprobados (some "x") = Except.error JsError.syntaxError ∧
    cargarRamosAprobados (some "x") ≠ Except.ok (Json.arr []) := by
  refine ⟨rfl, rfl, rfl, ?_⟩
  intro h
  rw [show cargarRamosAprobados (some "x") = Except.error JsError.syntaxError from rfl] at h
  exact Except.noConfusion h

/-- C7: a rejected click on a `bloqueado` tile reports exactly the
requirements that are not in the completed set, in requirement-list order,
each resolved through the lookup collaborator with the raw id as fallback,
and changes nothing else. -/
theorem claim7_rejection_message (lookup : String → Option String)
    (ramo : Ramo) (A : List String) (store : Option String)
    (hload : decodeAprobados store = some A)
    (hbl : status A ramo = Status.bloqueado) :
    manejarClicRamo lookup ramo (actualizarClases A ramo) store =
      some { alerta := some ((ramo.requisitos.filter fun r => decide (r ∉ A)).map
               fun r => (lookup r).getD r),
             didSave := false, store := store } := by
  have hb : (actualizarClases A ramo).bloqueado = true :=
    (status_bloqueado_iff_clase A ramo).1 hbl
  have hfal : faltantes ramo.requisitos A =
      ramo.requisitos.filter fun r => decide (r ∉ A) := by
    rw [faltantes]
    exact filter_not_contains_eq _ _
  simp [manejarClicRamo, hb, hload, nombresFaltantes, hfal]

/-- Witness for C7: clicking `C` (requiring `A` and `B`) with only `A`
completed reports the missing `B`, resolved by the lookup. -/
theorem claim7_rejection_message_witness :
    (decodeAprobados (guardarRamosAprobados ["A"]) = some ["A"]) ∧
    (status ["A"] { id := "C", requisitos := ["A", "B"] } = Status.bloqueado) ∧
    (manejarClicRamo (fun r => if r = "B" then some "Algebra II" else none)
        { id := "C", requisitos := ["A", "B"] }
        (actualizarClases ["A"] { id := "C", requisitos := ["A", "B"] })
        (guardarRamosAprobados ["A"]) =
      some { alerta := some ((({ id := "C", requisitos := ["A", "B"] } : Ramo).requisitos.filter
               fun r => decide (r ∉ (["A"] : List String))).map
               fun r => ((fun r => if r = "B" then some "Algebra II" else none) r).getD r),
             didSave := false, store := guardarRamosAprobados ["A"] }) :=
  ⟨decodeAprobados_guardar ["A"], by decide,
    claim7_rejection_message (fun r => if r = "B" then some "Algebra II" else none)
      { id := "C", requisitos := ["A", "B"] } ["A"] (guardarRamosAprobados ["A"])
      (decodeAprobados_guardar ["A"]) (by decide)⟩

/-- C9: a click on a tile that is not `bloqueado` changes the membership
of at most the clicked id: any other id belongs to the saved list exactly
when it belonged to the loaded one. -/
theorem claim9_toggle_frame (lookup : String → Option String) (ramo : Ramo)
    (A : List String) (store : Option String) (z : String)
    (hload : decodeAprobados store = some A)
    (hnb : status A ramo ≠ Status.bloqueado)
    (hz : z ≠ ramo.id) :
    manejarClicRamo lookup ramo (actualizarClases A ramo) store =
      some { alerta := none, didSave := true,
             store := guardarRamosAprobados (toggleAprobados A ramo.id) } ∧
    (z ∈ toggleAprobados A ramo.id ↔ z ∈ A) := by
  have hb : (actualizarClases A ramo).bloqueado = false :=
    clase_not_bloqueado_of_status_ne A ramo hnb
  refine ⟨by simp [manejarClicRamo, hb, hload], ?_⟩
  rw [mem_toggleAprobados]
  simp [hz]

/-- Witness for C9: toggling `A` on the stored list containing `B` leaves
the membership of `B` unchanged. -/
theorem claim9_toggle_frame_witness :
    (decodeAprobados (guardarRamosAprobados ["B"]) = some ["B"]) ∧
    (status ["B"] { id := "A", requisitos := [] } ≠ Status.bloqueado) ∧
    (("B" : String) ≠ ({ id := "A", requisitos := [] } : Ramo).id) ∧
    (manejarClicRamo (fun _ => none) { id := "A", requisitos := [] }
        (actualizarClases ["B"] { id := "A", requisitos := [] })
        (guardarRamosAprobados ["B"]) =
      some { alerta := none, didSave := true,
             store := guardarRamosAprobados
               (toggleAprobados ["B"] ({ id := "A", requisitos := [] } : Ramo).id) } ∧
    ("B" ∈ toggleAprobados ["B"] ({ id := "A", requisitos := [] } : Ramo).id ↔
      "B" ∈ (["B"] : List String))) :=
  ⟨decodeAprobados_guardar ["B"], by decide, by decide,
    claim9_toggle_frame (fun _ => none) { id := "A", requisitos := [] } ["B"]
      (guardarRamosAprobados ["B"]) "B" (decodeAprobados_guardar ["B"])
      (by decide) (by decide)⟩

/-- C10: toggling preserves freedom from duplicates: an id is appended
only when absent and removal drops every occurrence. -/
theorem claim10_toggle_preserves_nodup (A : List String) (X : String)
    (h : A.Nodup) : (toggleAprobados A X).Nodup := by
  by_cases hX : X ∈ A
  · have heq : toggleAprobados A X = A.filter fun id => id != X := by
      simp [toggleAprobados, hX]
    rw [heq]
    exact h.filter _
  · have heq : toggleAprobados A X = A ++ [X] := by
      simp [toggleAprobados, hX]
    rw [heq]
    refine h.append (List.nodup_singleton X) ?_
    intro a ha hax
    rw [List.mem_singleton] at hax
    exact hX (hax ▸ ha)

/-- Witness for C10 on the duplicate-free list containing `A` and `B`. -/
theorem claim10_toggle_preserves_nodup_witness :
    (["A", "B"] : List String).Nodup ∧ (toggleAprobados ["A", "B"] "A").Nodup :=
  ⟨by decide, claim10_toggle_preserves_nodup ["A", "B"] "A" (by decide)⟩

/-- C8 counterexample: in the one-item catalog holding `X` with the ghost
requirement `ghost`, the completed set containing only the catalog id `X`
satisfies the claim's hypotheses, yet `X` computes as `aprobado`, not
`bloqueado` — completion wins over the unmet ghost requirement. -/
theorem claim8_counterexample :
    ("ghost" ∈ ({ id := "X", requisitos := ["ghost"] } : Ramo).requisitos) ∧
    (∀ ramo ∈ [({ id := "X", requisitos := ["ghost"] } : Ramo)], ramo.id ≠ "ghost") ∧
    (∀ a ∈ (["X"] : List String),
      ∃ ramo ∈ [({ id := "X", requisitos := ["ghost"] } : Ramo)], ramo.id = a) ∧
    status ["X"] { id := "X", requisitos := ["ghost"] } = Status.aprobado ∧
    status ["X"] { id := "X", requisitos := ["ghost"] } ≠ Status.bloqueado := by
  decide

/-- C8 (amended): if an item's requirement list names an id outside the
catalog and the item is not itself completed, its status is `bloqueado`,
and it stays `bloqueado` through any sequence of clicks on catalog tiles
(each click applied with the classes in sync, as the script guarantees),
as long as the completed set starts with catalog ids only. -/
theorem claim8_ghost_requirement_locks (catalog : List Ramo) (X : Ramo)
    (r : String) (A0 : List String) (clicks : List Ramo)
    (hr : r ∈ X.requisitos)
    (hghost : ∀ ramo ∈ catalog, ramo.id ≠ r)
    (hA0 : ∀ a ∈ A0, ∃ ramo ∈ catalog, ramo.id = a)
    (hX0 : X.id ∉ A0)
    (hclicks : ∀ c ∈ clicks, c ∈ catalog)
    (huniq : ∀ c ∈ catalog, c.id = X.id → c = X) :
    status (clicks.foldl clickStep A0) X = Status.bloqueado := by
  have hr0 : r ∉ A0 := by
    intro hmem
    obtain ⟨ramo, hin, hid⟩ := hA0 r hmem
    exact hghost ramo hin hid
  have key : ∀ (cs : List Ramo) (a : List String), (∀ c ∈ cs, c ∈ catalog) →
      r ∉ a → X.id ∉ a →
      (r ∉ cs.foldl clickStep a ∧ X.id ∉ cs.foldl clickStep a) := by
    intro cs
    induction cs with
    | nil =>
      intro a _ h1 h2
      exact ⟨h1, h2⟩
    | cons c ct ih =>
      intro a hcs h1 h2
      have hcin : c ∈ catalog := hcs c (List.mem_cons_self _ _)
      have hct : ∀ d ∈ ct, d ∈ catalog := fun d hd => hcs d (List.mem_cons_of_mem _ hd)
      have hstep1 : r ∉ clickStep a c := by
        by_cases hb : (actualizarClases a c).bloqueado = true
        · simpa [clickStep, hb] using h1
        · have hb2 : (actualizarClases a c).bloqueado = false := by
            simpa using hb
          have hrc : r ≠ c.id := fun hh => hghost c hcin hh.symm
          simp only [clickStep, hb2, if_neg (by simp : ¬ (false = true))]
          rw [mem_toggleAprobados]
          simp [hrc, h1]
      have hstep2 : X.id ∉ clickStep a c := by
        by_cases hcX : c.id = X.id
        · have hcXeq : c = X := huniq c hcin hcX
          subst hcXeq
          have hbl : (actualizarClases a c).bloqueado = true := by
            apply (status_bloqueado_iff_clase a c).1
            rw [status_eq]
            have hex : ∃ rr ∈ c.requisitos, rr ∉ a := ⟨r, hr, h1⟩
            simp [h2, hex]
          simpa [clickStep, hbl] using h2
        · by_cases hb : (actualizarClases a c).bloqueado = true
          · simpa [clickStep, hb] using h2
          · have hb2 : (actualizarClases a c).bloqueado = false := by
              simpa using hb
            have hXc : X.id ≠ c.id := fun hh => hcX hh.symm
            simp only [clickStep, hb2, if_neg (by simp : ¬ (false = true))]
            rw [mem_toggleAprobados]
            simp [hXc, h2]
      have hfold : (c :: ct).foldl clickStep a = ct.foldl clickStep (clickStep a c) :=
        List.foldl_cons _ _
      rw [hfold]
      exact ih (clickStep a c) hct hstep1 hstep2
  obtain ⟨hrn, hXn⟩ := key clicks A0 hclicks hr0 hX0
  rw [status_eq]
  have hex : ∃ rr ∈ X.requisitos, rr ∉ clicks.foldl clickStep A0 := ⟨r, hr, hrn⟩
  simp [hXn, hex]

/-- Witness for C8 (amended): the tile `X` requiring the ghost id stays
`bloqueado` through two clicks on it, starting from the empty completed
set in the one-item catalog. -/
theorem claim8_ghost_requirement_locks_witness :
    ("ghost" ∈ ({ id := "X", requisitos := ["ghost"] } : Ramo).requisitos) ∧
    (∀ ramo ∈ [({ id := "X", requisitos := ["ghost"] } : Ramo)], ramo.id ≠ "ghost") ∧
    (∀ a ∈ ([] : List String),
      ∃ ramo ∈ [({ id := "X", requisitos := ["ghost"] } : Ramo)], ramo.id = a) ∧
    (({ id := "X", requisitos := ["ghost"] } : Ramo).id ∉ ([] : List String)) ∧
    (∀ c ∈ [({ id := "X", requisitos := ["ghost"] } : Ramo),
        ({ id := "X", requisitos := ["ghost"] } : Ramo)],
      c ∈ [({ id := "X", requisitos := ["ghost"] } : Ramo)]) ∧
    (∀ c ∈ [({ id := "X", requisitos := ["ghost"] } : Ramo)],
      c.id = ({ id := "X", requisitos := ["ghost"] } : Ramo).id →
        c = { id := "X", requisitos := ["ghost"] }) ∧
    status ([({ id := "X", requisitos := ["ghost"] } : Ramo),
        ({ id := "X", requisitos := ["ghost"] } : Ramo)].foldl clickStep [])
      { id := "X", requisitos := ["ghost"] } = Status.bloqueado :=
  ⟨by decide, by decide, by decide, by decide, by decide, by decide,
    claim8_ghost_requirement_locks [{ id := "X", requisitos := ["ghost"] }]
      { id := "X", requisitos := ["ghost"] } "ghost" []
      [{ id := "X", requisitos := ["ghost"] }, { id := "X", requisitos := ["ghost"] }]
      (by decide) (by decide) (by decide) (by decide) (by decide) (by decide)⟩

end Malla
